import Mathlib

/-!
Verification of the onnotify registry protocol (src/onnotify.py).

Shallow embedding conventions:
- Python byte strings are `List Nat` (one entry per byte).
- Python ints are `Int`; parsed decimal fields are nonnegative by construction.
- The store file's content is the byte list; Python's line iteration is
  `splitLines` (each chunk keeps its trailing newline, a last chunk without a
  newline is kept as-is).
- `db_update`'s filesystem effects on the fifo are modelled by a boolean
  `fifoExists` input: `os.mkfifo` wrapped in `try/except FileExistsError`
  never fails, while the bare `os.remove` on the shutdown path raises
  (modelled as `Except.error ()`) when the fifo is absent.
- Diagnostic `warn` calls are modelled as a list of `Warning` values in the
  order they are emitted.
-/

/-- Bytes of interest: newline is 10, space is 32, the ASCII digits are 48-57,
the minus sign is 45. -/
def isDigit (b : Nat) : Bool := decide (48 ≤ b) && decide (b ≤ 57)

/-- Python `int()` applied to a run of ASCII decimal digit bytes. -/
def digitsToNat (l : List Nat) : Nat :=
  l.foldl (fun a d => a * 10 + (d - 48)) 0

/-- Fuel-driven decimal printer (fuel keeps the recursion structural so that
the kernel can evaluate it). -/
def natToDigitsAux : Nat → Nat → List Nat
  | 0, _ => []
  | fuel + 1, n =>
    if n < 10 then [n + 48] else natToDigitsAux fuel (n / 10) ++ [n % 10 + 48]

/-- ASCII decimal digits of a natural number, as Python `str(n).encode()`. -/
def natToDigits (n : Nat) : List Nat := natToDigitsAux (n + 1) n

/-- Python `str(i).encode()` for an int: a minus sign byte 45 followed by the
digits of the absolute value when negative. -/
def intToBytes (i : Int) : List Nat :=
  if i < 0 then 45 :: natToDigits i.natAbs else natToDigits i.toNat

/-- A presence record `(timestamp, processId, identity)` as parsed from the
store: the Python tuple `(int, int, bytes)`. -/
abbrev DbRecord := Int × Int × List Nat

/-- parse_record (src/onnotify.py:65-72): match one store line against the
regex rb"^(\d+) (\d+) (.+)\n$" and return the `(int, int, bytes)` triple, or
`none` (after a warning) when the line is malformed.  Regex semantics over
bytes: each `\d+` is a maximal nonempty digit run that must be followed by a
single space; `.+` is a maximal nonempty run of non-newline bytes; the final
`\n$` accepts either end-of-input or one further trailing newline (Python's
`$` also matches just before a final newline). -/
def parse_record (s : List Nat) : Option DbRecord :=
  let d1 := s.takeWhile isDigit
  let r1 := s.dropWhile isDigit
  if d1 = [] then none
  else if r1.head? ≠ some 32 then none
  else
    let r2 := r1.tail
    let d2 := r2.takeWhile isDigit
    let r3 := r2.dropWhile isDigit
    if d2 = [] then none
    else if r3.head? ≠ some 32 then none
    else
      let rest := r3.tail
      let idb := rest.takeWhile (fun b => b != 10)
      let tl := rest.dropWhile (fun b => b != 10)
      if idb = [] then none
      else if tl = [10] ∨ tl = [10, 10] then
        some ((digitsToNat d1 : Int), (digitsToNat d2 : Int), idb)
      else none

/-- unparse_record (src/onnotify.py:74-75): join the three fields with single
spaces (ints via `str(p).encode()`) and append a newline byte. -/
def unparse_record (r : DbRecord) : List Nat :=
  intToBytes r.1 ++ 32 :: (intToBytes r.2.1 ++ 32 :: (r.2.2 ++ [10]))

/-- Python binary-file line iteration: split after every newline byte,
keeping the newline; a final chunk without a newline is kept as-is.  The
accumulator holds the current (reversed) partial line. -/
def splitLinesAux : List Nat → List Nat → List (List Nat)
  | [], acc => if acc = [] then [] else [acc.reverse]
  | b :: rest, acc =>
    if b = 10 then (acc.reverse ++ [10]) :: splitLinesAux rest []
    else splitLinesAux rest (b :: acc)

/-- The lines of a store file's content, as `for record in f` yields them. -/
def splitLines (s : List Nat) : List (List Nat) := splitLinesAux s []

/-- DB_UPDATE_INTERVAL (src/onnotify.py:19): seconds between heartbeat
rewrites; a record older than twice this is stale. -/
def DB_UPDATE_INTERVAL : Int := 15

/-- One `warn(...)` diagnostic emitted during a store rewrite: either the
per-line "ignoring malformed record" warning from parse_record, or the single
aggregated "erased N outdated records" warning from db_update. -/
inductive Warning where
  | malformed (line : List Nat)
  | erasedOutdated (n : Nat)
deriving DecidableEq

/-- The record-scanning loop of db_update (src/onnotify.py:80-88): walk the
store's lines in order, producing the surviving records (still in order), the
count of dropped stale records, and the malformed-line warnings in emission
order.  A line that fails to parse contributes only a warning; a stale record
is counted and dropped; a record for my_id is dropped; everything else is
kept unchanged. -/
def filterRecords (now my_id : Int) : List (List Nat) → List DbRecord × Nat × List Warning
  | [] => ([], 0, [])
  | line :: rest =>
    let t := filterRecords now my_id rest
    match parse_record line with
    | none => (t.1, t.2.1, Warning.malformed line :: t.2.2)
    | some (time_, id_, path) =>
      if now - time_ ≥ DB_UPDATE_INTERVAL * 2 then (t.1, t.2.1 + 1, t.2.2)
      else if id_ = my_id then t
      else ((time_, id_, path) :: t.1, t.2.1, t.2.2)

/-- The fifo file name f"fifo.{id_}" for a process id. -/
def fifoName (id_ : Int) : String := "fifo." ++ toString id_

/-- b"".join(map(unparse_record, new_records)): the bytes written back to the
store. -/
def serializeRecords (recs : List DbRecord) : List Nat :=
  (recs.map unparse_record).flatten

/-- The observable outcome of one successful db_update call. -/
structure DbResult where
  /-- new_records at the end of the call (survivors, plus this process's
  fresh record when create_record is true). -/
  newRecords : List DbRecord
  /-- n_outdated: how many stale records were dropped. -/
  nOutdated : Nat
  /-- the warn diagnostics, in emission order. -/
  warnings : List Warning
  /-- allowed_fifo_files: the fifo names of the surviving records (a Python
  set, modelled as a list used only through membership). -/
  allowed : List String
  /-- the bytes written back over the store file. -/
  content : List Nat
  /-- whether this process's fifo exists after the call. -/
  fifoAfter : Bool
deriving DecidableEq

/-- db_update (src/onnotify.py:77-105): re-read the store, drop malformed,
stale and own records, append a fresh own record when create_record is true
(creating the fifo idempotently), otherwise remove the fifo — where the bare
os.remove raises FileNotFoundError when the fifo is already absent, modelled
as `Except.error ()` (the rewrite aborts before writing).  On success the
store is truncated and rewritten with the surviving records and the set of
allowed fifo names is returned. -/
def db_update (now my_id : Int) (cwd : List Nat) (content : List Nat)
    (create_record : Bool) (fifoExists : Bool) : Except Unit DbResult :=
  let t := filterRecords now my_id (splitLines content)
  let warnings := t.2.2 ++
    (if 0 < t.2.1 then [Warning.erasedOutdated t.2.1] else [])
  if create_record then
    let new_records := t.1 ++ [(now, my_id, cwd)]
    Except.ok ⟨new_records, t.2.1, warnings,
      new_records.map (fun r => fifoName r.2.1),
      serializeRecords new_records, true⟩
  else if fifoExists then
    Except.ok ⟨t.1, t.2.1, warnings,
      t.1.map (fun r => fifoName r.2.1),
      serializeRecords t.1, false⟩
  else Except.error ()

/-- Did the rewrite complete without an uncaught exception? -/
def dbOk : Except Unit DbResult → Bool
  | Except.ok _ => true
  | Except.error _ => false

/-- The result of a completed rewrite (a dummy default on the error path,
used only under a hypothesis that forces the ok path). -/
def dbRes : Except Unit DbResult → DbResult
  | Except.ok r => r
  | Except.error _ => ⟨[], 0, [], [], [], false⟩

/-- Python str.startswith: the characters of the first string are a prefix of
the characters of the second. -/
def startsWithB (pre f : String) : Bool := pre.toList.isPrefixOf f.toList

/-- db_prune_old_fifo_files (src/onnotify.py:107-110): the set of directory
entries removed by the startup prune — every entry named fifo.* that is not
in the allowed set. -/
def db_prune_old_fifo_files (entries allowed : List String) : List String :=
  entries.filter (fun f => startsWithB "fifo." f && !(allowed.contains f))

/-- One iteration of the listener loop of db_fifo_thread
(src/onnotify.py:157-164) after a read returned `data`: an empty read only
sleeps, a nonempty read invokes `runner.run()` once per byte, in order.  The
runner is abstracted as a state transformer so that invocations are
observable. -/
def db_fifo_read_step {σ : Type} (run : σ → σ) (s : σ) (data : List Nat) : σ :=
  if data.isEmpty then s else data.foldl (fun st _ => run st) s

/-- What happened during main's startup checks (src/onnotify.py:31-39
together with the top-level Failure handler at 166-173). -/
structure StartupResult where
  /-- the process exit code when startup fails (sys.exit(1) on Failure). -/
  exitCode : Option Nat
  /-- the formatted error message reported via error(e), if any. -/
  errMsg : Option String
  /-- the registry directories created by os.makedirs (empty when a check
  failed, since the checks run first). -/
  registryDirs : List String
deriving DecidableEq

/-- The startup prefix of main: validate LOGNAME (unset or empty, then a
slash check) before touching the registry; only on success is the per-user
registry directory created. -/
def main_startup (logname : Option String) : StartupResult :=
  match logname with
  | none => ⟨some 1, some "LOGNAME is unset", []⟩
  | some w =>
    if w = "" then ⟨some 1, some "LOGNAME is unset", []⟩
    else if w.toList.contains '/' then ⟨some 1, some "LOGNAME contains a slash", []⟩
    else ⟨none, none, ["/tmp/notifydb." ++ w]⟩

/-- The stale test of db_update, as a boolean on records. -/
def staleB (now : Int) (r : DbRecord) : Bool :=
  decide (now - r.1 ≥ DB_UPDATE_INTERVAL * 2)

/-- The survival test of db_update: neither stale nor owned by my_id. -/
def keepB (now my_id : Int) (r : DbRecord) : Bool :=
  !(staleB now r) && !(decide (r.2.1 = my_id))

/-- The records a store content parses to (malformed lines contribute
nothing). -/
def parsedRecords (content : List Nat) : List DbRecord :=
  (splitLines content).filterMap parse_record

/-- The lines of the store that fail to parse. -/
def malformedLines (lines : List (List Nat)) : List (List Nat) :=
  lines.filter (fun l => (parse_record l).isNone)

/-- Is a warning the aggregated stale-eviction warning? -/
def isErasedWarning : Warning → Bool
  | Warning.erasedOutdated _ => true
  | Warning.malformed _ => false

/-- Store content holding two well-formed records for the same foreign
process id 7: b"100 7 a\n100 7 b\n". -/
def dupContent : List Nat :=
  [49, 48, 48, 32, 55, 32, 97, 10, 49, 48, 48, 32, 55, 32, 98, 10]

theorem takeWhile_middle (p : Nat → Bool) (l : List Nat) (x : Nat) (r : List Nat)
    (hl : ∀ b ∈ l, p b = true) (hx : p x = false) :
    (l ++ x :: r).takeWhile p = l := by
  induction l with
  | nil => simp [List.takeWhile_cons, hx]
  | cons a as ih =>
    have ha : p a = true := hl a (List.mem_cons_self a as)
    simp only [List.cons_append, List.takeWhile_cons, ha, if_true]
    simpa using ih (fun b hb => hl b (List.mem_cons_of_mem a hb))

theorem dropWhile_middle (p : Nat → Bool) (l : List Nat) (x : Nat) (r : List Nat)
    (hl : ∀ b ∈ l, p b = true) (hx : p x = false) :
    (l ++ x :: r).dropWhile p = x :: r := by
  induction l with
  | nil => simp [List.dropWhile_cons, hx]
  | cons a as ih =>
    have ha : p a = true := hl a (List.mem_cons_self a as)
    simp only [List.cons_append, List.dropWhile_cons, ha, if_true]
    exact ih (fun b hb => hl b (List.mem_cons_of_mem a hb))

theorem natToDigitsAux_all_digit :
    ∀ fuel n, n < fuel → ∀ b ∈ natToDigitsAux fuel n, isDigit b = true := by
  intro fuel
  induction fuel with
  | zero => intro n hn; omega
  | succ f ih =>
    intro n hn b hb
    by_cases h : n < 10
    · simp [natToDigitsAux, h] at hb
      subst hb
      simp [isDigit]; omega
    · simp only [natToDigitsAux, h, if_false] at hb
      rcases List.mem_append.mp hb with hb | hb
      · have hdiv : n / 10 < n := Nat.div_lt_self (by omega) (by omega)
        exact ih (n / 10) (by omega) b hb
      · have hmod : n % 10 < 10 := Nat.mod_lt n (by omega)
        simp at hb
        subst hb
        simp [isDigit]; omega

theorem natToDigitsAux_ne_nil :
    ∀ fuel n, n < fuel → natToDigitsAux fuel n ≠ [] := by
  intro fuel
  induction fuel with
  | zero => intro n hn; omega
  | succ f ih =>
    intro n hn
    by_cases h : n < 10 <;> simp [natToDigitsAux, h]

theorem natToDigitsAux_foldl :
    ∀ fuel n a, n < fuel →
      List.foldl (fun acc d => acc * 10 + (d - 48)) a (natToDigitsAux fuel n) =
        a * 10 ^ (natToDigitsAux fuel n).length + n := by
  intro fuel
  induction fuel with
  | zero => intro n a hn; omega
  | succ f ih =>
    intro n a hn
    by_cases h : n < 10
    · simp [natToDigitsAux, h]
    · have hdiv : n / 10 < n := Nat.div_lt_self (by omega) (by omega)
      simp only [natToDigitsAux, h, if_false, List.foldl_append, List.length_append,
        List.foldl_cons, List.foldl_nil, List.length_cons, List.length_nil]
      rw [ih (n / 10) a (by omega)]
      have e1 : ∀ L : Nat, a * 10 ^ (L + (0 + 1)) = a * 10 ^ L * 10 := by
        intro L; ring
      rw [e1]
      generalize a * 10 ^ (natToDigitsAux f (n / 10)).length = b
      omega

theorem natToDigits_all_digit (n : Nat) : ∀ b ∈ natToDigits n, isDigit b = true :=
  natToDigitsAux_all_digit (n + 1) n (Nat.lt_succ_self n)

theorem natToDigits_ne_nil (n : Nat) : natToDigits n ≠ [] :=
  natToDigitsAux_ne_nil (n + 1) n (Nat.lt_succ_self n)

theorem digitsToNat_natToDigits (n : Nat) : digitsToNat (natToDigits n) = n := by
  have h := natToDigitsAux_foldl (n + 1) n 0 (Nat.lt_succ_self n)
  simpa [digitsToNat, natToDigits] using h

theorem intToBytes_of_nonneg {i : Int} (h : 0 ≤ i) :
    intToBytes i = natToDigits i.toNat := by
  simp [intToBytes, Int.not_lt.mpr h]

theorem intToBytes_of_neg {i : Int} (h : i < 0) :
    intToBytes i = 45 :: natToDigits i.natAbs := by
  simp [intToBytes, h]

theorem intToBytes_ne_ten {i : Int} : ∀ b ∈ intToBytes i, b ≠ 10 := by
  intro b hb
  by_cases h : i < 0
  · simp only [intToBytes, h, if_true] at hb
    rcases List.mem_cons.mp hb with hb | hb
    · omega
    · have := natToDigits_all_digit i.natAbs b hb
      simp [isDigit] at this
      omega
  · simp only [intToBytes, h, if_false] at hb
    have := natToDigits_all_digit i.toNat b hb
    simp [isDigit] at this
    omega

theorem parse_record_wellformed (d1 d2 idb : List Nat)
    (h1 : d1 ≠ []) (hd1 : ∀ b ∈ d1, isDigit b = true)
    (h2 : d2 ≠ []) (hd2 : ∀ b ∈ d2, isDigit b = true)
    (hid : idb ≠ []) (hid10 : ∀ b ∈ idb, b ≠ 10) :
    parse_record (d1 ++ 32 :: (d2 ++ 32 :: (idb ++ [10]))) =
      some ((digitsToNat d1 : Int), (digitsToNat d2 : Int), idb) := by
  have h32 : isDigit 32 = false := by decide
  have ht1 := takeWhile_middle isDigit d1 32 (d2 ++ 32 :: (idb ++ [10])) hd1 h32
  have hw1 := dropWhile_middle isDigit d1 32 (d2 ++ 32 :: (idb ++ [10])) hd1 h32
  have ht2 := takeWhile_middle isDigit d2 32 (idb ++ [10]) hd2 h32
  have hw2 := dropWhile_middle isDigit d2 32 (idb ++ [10]) hd2 h32
  have hidp : ∀ b ∈ idb, (b != 10) = true := by
    intro b hb
    simpa using hid10 b hb
  have h1010 : ((10 : Nat) != 10) = false := by decide
  have ht3 := takeWhile_middle (fun b => b != 10) idb 10 [] hidp h1010
  have hw3 := dropWhile_middle (fun b => b != 10) idb 10 [] hidp h1010
  rw [parse_record]
  simp only [ht3, hw3]
  simp [ht1, hw1, ht2, hw2, ht3, hw3, h1, h2, hid]

theorem parse_record_no_digit {s : List Nat} (h : s.takeWhile isDigit = []) :
    parse_record s = none := by
  rw [parse_record]
  simp [h]

theorem parse_record_second_no_digit (d1 : List Nat) (r2 : List Nat)
    (h1 : d1 ≠ []) (hd1 : ∀ b ∈ d1, isDigit b = true)
    (h : r2.takeWhile isDigit = []) :
    parse_record (d1 ++ 32 :: r2) = none := by
  have h32 : isDigit 32 = false := by decide
  have ht1 := takeWhile_middle isDigit d1 32 r2 hd1 h32
  have hw1 := dropWhile_middle isDigit d1 32 r2 hd1 h32
  rw [parse_record]
  simp [ht1, hw1, h, h1]

theorem parse_record_empty_identity (d1 d2 : List Nat)
    (h1 : d1 ≠ []) (hd1 : ∀ b ∈ d1, isDigit b = true)
    (h2 : d2 ≠ []) (hd2 : ∀ b ∈ d2, isDigit b = true) :
    parse_record (d1 ++ 32 :: (d2 ++ 32 :: [10])) = none := by
  have h32 : isDigit 32 = false := by decide
  have ht1 := takeWhile_middle isDigit d1 32 (d2 ++ 32 :: [10]) hd1 h32
  have hw1 := dropWhile_middle isDigit d1 32 (d2 ++ 32 :: [10]) hd1 h32
  have ht2 := takeWhile_middle isDigit d2 32 [10] hd2 h32
  have hw2 := dropWhile_middle isDigit d2 32 [10] hd2 h32
  rw [parse_record]
  simp [ht1, hw1, ht2, hw2, h1, h2, List.takeWhile]

theorem splitLinesAux_single :
    ∀ (l : List Nat) (acc : List Nat), (∀ b ∈ l, b ≠ 10) →
      splitLinesAux (l ++ [10]) acc = [acc.reverse ++ (l ++ [10])] := by
  intro l
  induction l with
  | nil => intro acc _; simp [splitLinesAux]
  | cons a as ih =>
    intro acc h
    have ha : a ≠ 10 := h a (List.mem_cons_self a as)
    simp only [List.cons_append, splitLinesAux, ha, if_false, List.append_eq]
    rw [ih (a :: acc) (fun b hb => h b (List.mem_cons_of_mem a hb))]
    simp

theorem splitLines_single (l : List Nat) (h : ∀ b ∈ l, b ≠ 10) :
    splitLines (l ++ [10]) = [l ++ [10]] := by
  simpa using splitLinesAux_single l [] h

theorem filterRecords_eq (now my_id : Int) (lines : List (List Nat)) :
    filterRecords now my_id lines =
      ((lines.filterMap parse_record).filter (keepB now my_id),
       (lines.filterMap parse_record).countP (staleB now),
       (malformedLines lines).map Warning.malformed) := by
  induction lines with
  | nil => rfl
  | cons line rest ih =>
    cases hp : parse_record line with
    | none =>
      simp [filterRecords, hp, ih, List.filterMap_cons, malformedLines,
        List.filter_cons, List.countP_cons]
    | some r =>
      obtain ⟨t, i, p⟩ := r
      by_cases hstale : now - t ≥ DB_UPDATE_INTERVAL * 2
      · have hsb : staleB now (t, i, p) = true := by
          simp [staleB, hstale]
        have hkb : keepB now my_id (t, i, p) = false := by
          simp [keepB, hsb]
        simp [filterRecords, hp, ih, List.filterMap_cons, malformedLines,
          List.filter_cons, List.countP_cons, hstale, hsb, hkb]
      · have hsb : staleB now (t, i, p) = false := by
          simp [staleB, hstale]
        by_cases hid : i = my_id
        · subst hid
          have hkb : keepB now i (t, i, p) = false := by
            simp [keepB]
          simp [filterRecords, hp, ih, List.filterMap_cons, malformedLines,
            List.filter_cons, List.countP_cons, hstale, hsb, hkb]
        · have hkb : keepB now my_id (t, i, p) = true := by
            simp [keepB, hsb, hid]
          simp [filterRecords, hp, ih, List.filterMap_cons, malformedLines,
            List.filter_cons, List.countP_cons, hstale, hsb, hkb, hid]

/-- The registration rewrite (create_record = true) always succeeds; its
result spelled out in terms of the parsed input records. -/
theorem db_update_create_eq (now my_id : Int) (cwd content : List Nat) (fe : Bool) :
    db_update now my_id cwd content true fe =
      Except.ok ⟨(parsedRecords content).filter (keepB now my_id) ++ [(now, my_id, cwd)],
        (parsedRecords content).countP (staleB now),
        (malformedLines (splitLines content)).map Warning.malformed ++
          (if 0 < (parsedRecords content).countP (staleB now) then
            [Warning.erasedOutdated ((parsedRecords content).countP (staleB now))] else []),
        ((parsedRecords content).filter (keepB now my_id) ++ [(now, my_id, cwd)]).map
          (fun r => fifoName r.2.1),
        serializeRecords ((parsedRecords content).filter (keepB now my_id) ++ [(now, my_id, cwd)]),
        true⟩ := by
  rw [db_update, filterRecords_eq]
  rfl

/-- The shutdown rewrite with the fifo still present also succeeds. -/
theorem db_update_remove_eq (now my_id : Int) (cwd content : List Nat) :
    db_update now my_id cwd content false true =
      Except.ok ⟨(parsedRecords content).filter (keepB now my_id),
        (parsedRecords content).countP (staleB now),
        (malformedLines (splitLines content)).map Warning.malformed ++
          (if 0 < (parsedRecords content).countP (staleB now) then
            [Warning.erasedOutdated ((parsedRecords content).countP (staleB now))] else []),
        ((parsedRecords content).filter (keepB now my_id)).map (fun r => fifoName r.2.1),
        serializeRecords ((parsedRecords content).filter (keepB now my_id)),
        false⟩ := by
  rw [db_update, filterRecords_eq]
  rfl

/-- The shutdown rewrite with the fifo already gone raises. -/
theorem db_update_remove_absent (now my_id : Int) (cwd content : List Nat) :
    db_update now my_id cwd content false false = Except.error () := by
  rw [db_update, filterRecords_eq]
  rfl

theorem keepB_fresh {now my_id : Int} {r : DbRecord} (h : keepB now my_id r = true) :
    now - r.1 < DB_UPDATE_INTERVAL * 2 := by
  simp [keepB, staleB] at h
  omega

theorem keepB_not_self {now my_id : Int} {r : DbRecord} (h : keepB now my_id r = true) :
    r.2.1 ≠ my_id := by
  simp [keepB, staleB] at h
  exact h.2

theorem keepB_of_fresh_other {now my_id : Int} {r : DbRecord}
    (hfresh : now - r.1 < DB_UPDATE_INTERVAL * 2) (hid : r.2.1 ≠ my_id) :
    keepB now my_id r = true := by
  simp [keepB, staleB, hid]
  omega

theorem mem_malformedLines {lines : List (List Nat)} {line : List Nat}
    (hline : line ∈ lines) (hbad : parse_record line = none) :
    line ∈ malformedLines lines :=
  List.mem_filter.mpr ⟨hline, by simp [hbad]⟩

theorem mem_db_prune (entries allowed : List String) (f : String) (hf : f ∈ entries) :
    f ∈ db_prune_old_fifo_files entries allowed ↔
      (startsWithB "fifo." f = true ∧ f ∉ allowed) := by
  simp [db_prune_old_fifo_files, List.mem_filter, hf]

theorem foldl_run_eq_iterate {σ : Type} (run : σ → σ) :
    ∀ (l : List Nat) (st : σ), l.foldl (fun st2 _ => run st2) st = run^[l.length] st := by
  intro l
  induction l with
  | nil => intro st; rfl
  | cons a as ih =>
    intro st
    simp [List.foldl_cons, ih, Function.iterate_succ_apply]

/-- C1 counterexample: the claim as stated quantifies over all integer
timestamps/ids and all identities without a line terminator, but the empty
identity (no line terminator in it) and a negative timestamp both fail the
round trip: parse_record rejects the serialized line. -/
theorem parse_unparse_roundtrip_cex :
    parse_record (unparse_record (0, 0, [])) ≠ some (0, 0, []) ∧
    parse_record (unparse_record (-1, 1, [97])) ≠ some (-1, 1, [97]) := by
  decide

/-- C1 (amended): for every triple with nonnegative timestamp and processId
and a nonempty identity containing no newline byte, parsing the line produced
by unparse_record yields back exactly the original triple. -/
theorem parse_unparse_roundtrip (ts pid : Int) (idb : List Nat)
    (hts : 0 ≤ ts) (hpid : 0 ≤ pid) (hne : idb ≠ []) (h10 : ∀ b ∈ idb, b ≠ 10) :
    parse_record (unparse_record (ts, pid, idb)) = some (ts, pid, idb) := by
  have heq : unparse_record (ts, pid, idb) =
      natToDigits ts.toNat ++ 32 :: (natToDigits pid.toNat ++ 32 :: (idb ++ [10])) := by
    simp [unparse_record, intToBytes_of_nonneg hts, intToBytes_of_nonneg hpid]
  rw [heq, parse_record_wellformed _ _ _ (natToDigits_ne_nil _) (natToDigits_all_digit _)
    (natToDigits_ne_nil _) (natToDigits_all_digit _) hne h10]
  simp [digitsToNat_natToDigits, Int.toNat_of_nonneg hts, Int.toNat_of_nonneg hpid]

theorem parse_unparse_roundtrip_witness :
    parse_record (unparse_record (3, 5, [97])) = some (3, 5, [97]) :=
  parse_unparse_roundtrip 3 5 [97] (by decide) (by decide) (by decide) (by decide)

/-- C4 counterexample: the claim says the shutdown-path removal of an absent
channel is silently tolerated, but db_update's bare os.remove raises
FileNotFoundError when the fifo is already gone (src/onnotify.py:99 has no
try/except, unlike the mkfifo at 94-97). -/
theorem db_update_remove_race_cex :
    db_update 0 1 [] [] false false = Except.error () := rfl

/-- C4 (amended): creating the channel while it already exists is tolerated
(createSelf = true never raises, whatever the fifo state), but removing the
channel succeeds only when the fifo still exists: with createSelf = false the
rewrite completes exactly when the fifo was present, and raises otherwise. -/
theorem db_update_cleanup_races (now my_id : Int) (cwd content : List Nat) (fe : Bool) :
    dbOk (db_update now my_id cwd content true fe) = true ∧
    dbOk (db_update now my_id cwd content false fe) = fe := by
  constructor
  · rw [db_update_create_eq]; rfl
  · cases fe
    · rw [db_update_remove_absent]; rfl
    · rw [db_update_remove_eq]; rfl

theorem db_update_cleanup_races_witness :
    dbOk (db_update 0 1 [2] [] true true) = true ∧
    dbOk (db_update 0 1 [2] [] false true) = true :=
  db_update_cleanup_races 0 1 [2] [] true

/-- C7: for every nonempty byte sequence obtained from one channel read, the
listener invokes the dispatcher's run exactly once per byte, sequentially in
the order the bytes were read (the state after the read is the |data|-fold
iterate of run). -/
theorem db_fifo_per_byte_dispatch {σ : Type} (run : σ → σ) (s : σ) (data : List Nat)
    (h : data ≠ []) :
    db_fifo_read_step run s data = run^[data.length] s := by
  have hne : data.isEmpty = false := by
    cases data
    · exact absurd rfl h
    · rfl
  rw [db_fifo_read_step]
  simp [hne, foldl_run_eq_iterate]

theorem db_fifo_per_byte_dispatch_witness :
    db_fifo_read_step Nat.succ 0 [7, 7, 7, 7, 7] = 5 :=
  Eq.trans (db_fifo_per_byte_dispatch Nat.succ 0 [7, 7, 7, 7, 7] (by decide)) (by decide)

/-- C9: when LOGNAME is unset, empty, or contains a slash, startup exits with
code 1, reports a formatted error, and creates no registry directory (the
checks run before any registry interaction). -/
theorem main_startup_invalid_logname (logname : Option String)
    (h : logname = none ∨ logname = some "" ∨
      ∃ w, logname = some w ∧ '/' ∈ w.toList) :
    (main_startup logname).exitCode = some 1 ∧
    (main_startup logname).errMsg ≠ none ∧
    (main_startup logname).registryDirs = [] := by
  rcases h with rfl | rfl | ⟨w, rfl, hw⟩
  · simp [main_startup]
  · simp [main_startup]
  · by_cases hempty : w = ""
    · subst hempty; simp [main_startup]
    · have hc : '/' ∈ w.data := hw
      simp [main_startup, hempty, hc]

theorem main_startup_invalid_logname_witness :
    (main_startup (some "a/b")).exitCode = some 1 ∧
    (main_startup (some "a/b")).errMsg ≠ none ∧
    (main_startup (some "a/b")).registryDirs = [] :=
  main_startup_invalid_logname (some "a/b")
    (Or.inr (Or.inr ⟨"a/b", rfl, by decide⟩))

/-- C2 counterexample: the claim as stated promises at most one output record
per processId starting from any input store content, but db_update only
drops duplicates of my_id: an input store holding two fresh records for the
foreign id 7 produces an output store still holding both. -/
theorem db_update_duplicate_ids_cex :
    ¬ (((dbRes (db_update 100 5 [99] dupContent true true)).newRecords.map
        (fun r => r.2.1)).Nodup) := by
  decide

/-- C2 (amended): db_update preserves the at-most-one-record-per-processId
invariant (if the parsed input records have pairwise distinct ids, so does
the output), and — unconditionally, from any input store content whatsoever —
a rewrite with createSelf = true leaves exactly one surviving record for
selfId; since the latter holds for every content, running the registration
rewrite twice in sequence leaves exactly one. -/
theorem db_update_at_most_one_per_id (now my_id : Int) (cwd content : List Nat)
    (c fe : Bool) (hok : (c || fe) = true) :
    (((parsedRecords content).map (fun r => r.2.1)).Nodup →
      (((dbRes (db_update now my_id cwd content c fe)).newRecords.map
        (fun r => r.2.1)).Nodup)) ∧
    (c = true →
      (dbRes (db_update now my_id cwd content c fe)).newRecords.countP
        (fun r => decide (r.2.1 = my_id)) = 1) := by
  have hnoself : ∀ r ∈ (parsedRecords content).filter (keepB now my_id),
      r.2.1 ≠ my_id :=
    fun r hr => keepB_not_self (List.mem_filter.mp hr).2
  cases c
  · cases fe
    · simp at hok
    · rw [db_update_remove_eq]
      refine ⟨?_, by simp⟩
      intro hinput
      exact List.Nodup.sublist ((List.filter_sublist _).map _) hinput
  · rw [db_update_create_eq]
    simp only [dbRes]
    constructor
    · intro hinput
      have hF : (((parsedRecords content).filter (keepB now my_id)).map
          (fun r => r.2.1)).Nodup :=
        List.Nodup.sublist ((List.filter_sublist _).map _) hinput
      rw [List.map_append, List.nodup_append]
      refine ⟨hF, by simp, ?_⟩
      intro a ha hb
      simp at hb
      subst hb
      obtain ⟨r, hr, hrid⟩ := List.mem_map.mp ha
      exact hnoself r hr hrid
    · intro _
      rw [List.countP_append]
      have h0 : ((parsedRecords content).filter (keepB now my_id)).countP
          (fun r => decide (r.2.1 = my_id)) = 0 :=
        List.countP_eq_zero.mpr (fun r hr => by simpa using hnoself r hr)
      simp [h0]

theorem db_update_at_most_one_per_id_witness :
    (((parsedRecords dupContent).map (fun r => r.2.1)).Nodup →
      (((dbRes (db_update 100 5 [99] dupContent true true)).newRecords.map
        (fun r => r.2.1)).Nodup)) ∧
    (true = true →
      (dbRes (db_update 100 5 [99] dupContent true true)).newRecords.countP
        (fun r => decide (r.2.1 = 5)) = 1) :=
  db_update_at_most_one_per_id 100 5 [99] dupContent true true (by decide)

/-- C3: a completed rewrite outputs no record whose age is at least twice the
heartbeat interval; the dropped stale records are counted exactly, and they
are reported through one aggregated erased-outdated warning (present exactly
when the count is positive) rather than individually. -/
theorem db_update_stale_eviction (now my_id : Int) (cwd content : List Nat)
    (c fe : Bool) (hok : (c || fe) = true) :
    ((dbRes (db_update now my_id cwd content c fe)).newRecords.all
      (fun r => decide (now - r.1 < DB_UPDATE_INTERVAL * 2))) = true ∧
    (dbRes (db_update now my_id cwd content c fe)).nOutdated =
      (parsedRecords content).countP (staleB now) ∧
    ((dbRes (db_update now my_id cwd content c fe)).warnings.countP isErasedWarning) =
      (if 0 < (dbRes (db_update now my_id cwd content c fe)).nOutdated then 1 else 0) ∧
    (0 < (dbRes (db_update now my_id cwd content c fe)).nOutdated →
      Warning.erasedOutdated ((dbRes (db_update now my_id cwd content c fe)).nOutdated) ∈
        (dbRes (db_update now my_id cwd content c fe)).warnings) := by
  have hwarn : ∀ n : Nat,
      (((malformedLines (splitLines content)).map Warning.malformed ++
        (if 0 < n then [Warning.erasedOutdated n] else [])).countP isErasedWarning) =
        (if 0 < n then 1 else 0) := by
    intro n
    rw [List.countP_append, List.countP_map]
    have h1 : ((malformedLines (splitLines content)).countP
        (isErasedWarning ∘ Warning.malformed)) = 0 :=
      List.countP_eq_zero.mpr (fun l _ => by simp [isErasedWarning, Function.comp])
    rw [h1]
    by_cases hn : 0 < n
    · simp [hn, isErasedWarning]
    · simp [hn]
  have hmem : ∀ n : Nat, 0 < n →
      Warning.erasedOutdated n ∈
        ((malformedLines (splitLines content)).map Warning.malformed ++
          (if 0 < n then [Warning.erasedOutdated n] else [])) := by
    intro n hn
    exact List.mem_append_right _ (by simp [hn])
  cases c
  · cases fe
    · simp at hok
    · rw [db_update_remove_eq]
      refine ⟨?_, rfl, hwarn _, hmem _⟩
      rw [List.all_eq_true]
      intro r hr
      simpa using keepB_fresh (List.mem_filter.mp hr).2
  · rw [db_update_create_eq]
    refine ⟨?_, rfl, hwarn _, hmem _⟩
    rw [List.all_eq_true]
    intro r hr
    rcases List.mem_append.mp hr with hr | hr
    · simpa using keepB_fresh (List.mem_filter.mp hr).2
    · simp at hr
      subst hr
      simp [DB_UPDATE_INTERVAL]

theorem db_update_stale_eviction_witness :
    ((dbRes (db_update 100 1 [97] [49, 32, 50, 32, 97, 10] true true)).newRecords.all
      (fun r => decide (100 - r.1 < DB_UPDATE_INTERVAL * 2))) = true ∧
    (dbRes (db_update 100 1 [97] [49, 32, 50, 32, 97, 10] true true)).nOutdated =
      (parsedRecords [49, 32, 50, 32, 97, 10]).countP (staleB 100) ∧
    ((dbRes (db_update 100 1 [97] [49, 32, 50, 32, 97, 10] true true)).warnings.countP
      isErasedWarning) =
      (if 0 < (dbRes (db_update 100 1 [97] [49, 32, 50, 32, 97, 10] true true)).nOutdated
        then 1 else 0) ∧
    (0 < (dbRes (db_update 100 1 [97] [49, 32, 50, 32, 97, 10] true true)).nOutdated →
      Warning.erasedOutdated
          ((dbRes (db_update 100 1 [97] [49, 32, 50, 32, 97, 10] true true)).nOutdated) ∈
        (dbRes (db_update 100 1 [97] [49, 32, 50, 32, 97, 10] true true)).warnings) :=
  db_update_stale_eviction 100 1 [97] [49, 32, 50, 32, 97, 10] true true (by decide)

/-- C5: a store line that fails to parse is dropped with a non-fatal
malformed-record warning and never aborts the rewrite: db_update still
completes, its output records are exactly the surviving valid ones (plus the
fresh own record), and the bytes written back serialize exactly those
records. -/
theorem db_update_malformed_nonfatal (now my_id : Int) (cwd content : List Nat)
    (fe : Bool) (line : List Nat) (hline : line ∈ splitLines content)
    (hbad : parse_record line = none) :
    dbOk (db_update now my_id cwd content true fe) = true ∧
    Warning.malformed line ∈ (dbRes (db_update now my_id cwd content true fe)).warnings ∧
    (dbRes (db_update now my_id cwd content true fe)).content =
      serializeRecords ((dbRes (db_update now my_id cwd content true fe)).newRecords) ∧
    (dbRes (db_update now my_id cwd content true fe)).newRecords =
      (parsedRecords content).filter (keepB now my_id) ++ [(now, my_id, cwd)] := by
  rw [db_update_create_eq]
  refine ⟨rfl, ?_, rfl, rfl⟩
  exact List.mem_append_left _
    (List.mem_map_of_mem _ (mem_malformedLines hline hbad))

theorem db_update_malformed_nonfatal_witness :
    dbOk (db_update 0 9 [97] [120, 10, 49, 32, 50, 32, 97, 10] true true) = true ∧
    Warning.malformed [120, 10] ∈
      (dbRes (db_update 0 9 [97] [120, 10, 49, 32, 50, 32, 97, 10] true true)).warnings ∧
    (dbRes (db_update 0 9 [97] [120, 10, 49, 32, 50, 32, 97, 10] true true)).content =
      serializeRecords
        ((dbRes (db_update 0 9 [97] [120, 10, 49, 32, 50, 32, 97, 10] true true)).newRecords) ∧
    (dbRes (db_update 0 9 [97] [120, 10, 49, 32, 50, 32, 97, 10] true true)).newRecords =
      (parsedRecords [120, 10, 49, 32, 50, 32, 97, 10]).filter (keepB 0 9) ++ [(0, 9, [97])] :=
  db_update_malformed_nonfatal 0 9 [97] [120, 10, 49, 32, 50, 32, 97, 10] true [120, 10]
    (by decide) (by decide)

/-- C6: a rewrite by process my_id leaves other processes' fresh data
untouched — every parseable input record with a different processId and age
strictly below twice the interval appears unchanged in the output records. -/
theorem db_update_frame_other_fresh (now my_id : Int) (cwd content : List Nat)
    (c fe : Bool) (r : DbRecord) (hok : (c || fe) = true)
    (hr : r ∈ parsedRecords content) (hid : r.2.1 ≠ my_id)
    (hfresh : now - r.1 < DB_UPDATE_INTERVAL * 2) :
    r ∈ (dbRes (db_update now my_id cwd content c fe)).newRecords := by
  have hkeep : keepB now my_id r = true := keepB_of_fresh_other hfresh hid
  cases c
  · cases fe
    · simp at hok
    · rw [db_update_remove_eq]
      exact List.mem_filter.mpr ⟨hr, hkeep⟩
  · rw [db_update_create_eq]
    exact List.mem_append_left _ (List.mem_filter.mpr ⟨hr, hkeep⟩)

theorem db_update_frame_other_fresh_witness :
    ((100 : Int), (7 : Int), ([97] : List Nat)) ∈
      (dbRes (db_update 100 5 [99] [49, 48, 48, 32, 55, 32, 97, 10] true true)).newRecords :=
  db_update_frame_other_fresh 100 5 [99] [49, 48, 48, 32, 55, 32, 97, 10] true true
    (100, 7, [97]) (by decide) (by decide) (by decide) (by decide)

/-- C8: against the allowed set returned by the registration rewrite — which
is exactly the fifo names of the surviving records — the startup prune
removes a directory entry exactly when its name starts with the fifo prefix
and is not allowed; in particular it removes no allowed entry. -/
theorem db_prune_exact (entries : List String) (now my_id : Int)
    (cwd content : List Nat) (fe : Bool) (f : String) (hf : f ∈ entries) :
    (f ∈ db_prune_old_fifo_files entries
        (dbRes (db_update now my_id cwd content true fe)).allowed ↔
      (startsWithB "fifo." f = true ∧
        f ∉ (dbRes (db_update now my_id cwd content true fe)).allowed)) ∧
    (dbRes (db_update now my_id cwd content true fe)).allowed =
      (dbRes (db_update now my_id cwd content true fe)).newRecords.map
        (fun r => fifoName r.2.1) := by
  exact ⟨mem_db_prune entries _ f hf, by rw [db_update_create_eq]; rfl⟩

theorem db_prune_exact_witness :
    ("fifo.1" ∈ db_prune_old_fifo_files ["fifo.1", "db", "fifo.5"]
        (dbRes (db_update 0 5 [] [] true true)).allowed ↔
      (startsWithB "fifo." "fifo.1" = true ∧
        "fifo.1" ∉ (dbRes (db_update 0 5 [] [] true true)).allowed)) ∧
    (dbRes (db_update 0 5 [] [] true true)).allowed =
      (dbRes (db_update 0 5 [] [] true true)).newRecords.map
        (fun r => fifoName r.2.1) :=
  db_prune_exact ["fifo.1", "db", "fifo.5"] 0 5 [] [] true "fifo.1" (by decide)

/-- C10 (implicit): parse_record requires a nonempty identity field, so the
line unparse_record produces for any record with an empty identity is
rejected (returns none); consequently the next rewrite over a store holding
only that line reports it as malformed and drops it, keeping only the fresh
own record. -/
theorem empty_identity_rejected (ts pid now my_id : Int) (cwd : List Nat) (fe : Bool) :
    parse_record (unparse_record (ts, pid, [])) = none ∧
    (db_update now my_id cwd (unparse_record (ts, pid, [])) true fe).map
      (fun r => (r.newRecords, r.warnings)) =
      Except.ok ([(now, my_id, cwd)],
        [Warning.malformed (unparse_record (ts, pid, []))]) := by
  have h45 : isDigit 45 = false := by decide
  have hpn : parse_record (unparse_record (ts, pid, [])) = none := by
    by_cases hts : ts < 0
    · apply parse_record_no_digit
      have heq : unparse_record (ts, pid, []) =
          45 :: (natToDigits ts.natAbs ++ 32 :: (intToBytes pid ++ 32 :: [10])) := by
        simp [unparse_record, intToBytes, hts]
      rw [heq]
      simp [List.takeWhile_cons, h45]
    · have hts0 : 0 ≤ ts := Int.not_lt.mp hts
      by_cases hpid : pid < 0
      · have heq : unparse_record (ts, pid, []) =
            natToDigits ts.toNat ++ 32 ::
              (45 :: (natToDigits pid.natAbs ++ 32 :: [10])) := by
          simp [unparse_record, intToBytes_of_nonneg hts0, intToBytes_of_neg hpid]
        rw [heq]
        apply parse_record_second_no_digit _ _ (natToDigits_ne_nil _)
          (natToDigits_all_digit _)
        simp [List.takeWhile_cons, h45]
      · have hpid0 : 0 ≤ pid := Int.not_lt.mp hpid
        have heq : unparse_record (ts, pid, []) =
            natToDigits ts.toNat ++ 32 :: (natToDigits pid.toNat ++ 32 :: [10]) := by
          simp [unparse_record, intToBytes_of_nonneg hts0, intToBytes_of_nonneg hpid0]
        rw [heq]
        exact parse_record_empty_identity _ _ (natToDigits_ne_nil _)
          (natToDigits_all_digit _) (natToDigits_ne_nil _) (natToDigits_all_digit _)
  have hsplit : splitLines (unparse_record (ts, pid, [])) =
      [unparse_record (ts, pid, [])] := by
    have heq : unparse_record (ts, pid, []) =
        (intToBytes ts ++ 32 :: (intToBytes pid ++ [32])) ++ [10] := by
      simp [unparse_record]
    rw [heq]
    apply splitLines_single
    intro b hb
    rcases List.mem_append.mp hb with hb | hb
    · exact intToBytes_ne_ten b hb
    · rcases List.mem_cons.mp hb with rfl | hb
      · decide
      · rcases List.mem_append.mp hb with hb | hb
        · exact intToBytes_ne_ten b hb
        · simp at hb
          subst hb
          decide
  refine ⟨hpn, ?_⟩
  rw [db_update_create_eq]
  simp [Except.map, parsedRecords, hsplit, hpn, malformedLines, List.filterMap_cons,
    List.filter_cons]

theorem empty_identity_rejected_witness :
    parse_record (unparse_record (1, 2, [])) = none ∧
    (db_update 0 3 [97] (unparse_record (1, 2, [])) true true).map
      (fun r => (r.newRecords, r.warnings)) =
      Except.ok ([((0 : Int), (3 : Int), ([97] : List Nat))],
        [Warning.malformed (unparse_record (1, 2, []))]) :=
  empty_identity_rejected 1 2 0 3 [97] true

